import Mathlib

/-!
Verification of the commongroups CMGroup core (resumable update/merge engine
and batch driver). The repository ships only the test contracts for this core
(src/commongroups/tests/test_cmgroup.py); the `cmgroup` module itself
(CMGroup class, `merge` semantics, `batch_cmg_search`) is not present, so the
definitions below are modelled from the specification's description of the
GroupStore / CMGroup / BatchScheduler components.
-/

/-- Modelled from the spec: the Params record
`{materialid, name, query, last_updated, current_update}`; `current_update`
is null when idle, set while a search is outstanding.  The `cmgroup` module
holding the real implementation is absent from the sources. -/
structure Params where
  materialid : String
  name : String
  query : String
  last_updated : String
  current_update : Option Nat
deriving DecidableEq

/-- Modelled from the spec: one property record, keyed by its identifier
(CID), carrying enriched property data such as a chemical name. -/
structure Compound where
  cid : Nat
  iupac_name : String
deriving DecidableEq

/-- Modelled from the spec: a CMGroup aggregate — one Params, one
IdentifierSet (ordered list of candidate CIDs) and one RecordSet (list of
property records, unique per identifier). -/
structure CMGroup where
  params : Params
  cids : List Nat
  compounds : List Compound
deriving DecidableEq

/-- Modelled from the spec: the group's `materialid` attribute, taken from
its params record. -/
def CMGroup.materialid (g : CMGroup) : String := g.params.materialid

/-- Modelled from the spec: the group's `name` attribute, taken from its
params record. -/
def CMGroup.name (g : CMGroup) : String := g.params.name

/-- Modelled from the spec: constructing a CMGroup from a params record;
the identifier set and record set start out empty. -/
def cmgroup_from_params (p : Params) : CMGroup := ⟨p, [], []⟩

/-- A group that has never held any identifiers or records (used to state
that `clear_data` resets a group to a fresh state). -/
def fresh_group (p : Params) : CMGroup := ⟨p, [], []⟩

/-- The identifiers of a list of records. -/
def cidsOf (recs : List Compound) : List Nat := recs.map Compound.cid

/-- Modelled from the spec: `GroupStore.merge_records` — appends only
records whose identifier is not already present; existing records are
preserved.  The `cmgroup` module holding the real implementation is absent
from the sources. -/
def merge_records (existing : List Compound) : List Compound → List Compound
  | [] => existing
  | r :: rest =>
    if r.cid ∈ cidsOf existing then merge_records existing rest
    else merge_records (existing ++ [r]) rest

/-- Modelled from the spec: the `missing` computation of
`update_from_identifiers` — the identifier-set minus the identifiers of the
records already in the record set. -/
def missingCids (g : CMGroup) : List Nat :=
  g.cids.filter (fun i => decide (i ∉ cidsOf g.compounds))

/-- Modelled from the spec: `update_from_identifiers(property_client)` —
resumable enrichment: fetch each missing identifier, drop failed fetches
(the identifier stays missing), and merge the successes into the record
set. -/
def update_from_identifiers (fetch : Nat → Option Compound) (g : CMGroup) :
    CMGroup :=
  { g with compounds :=
      merge_records g.compounds ((missingCids g).filterMap fetch) }

/-- Modelled from the spec: `clear_data()` — removes identifier set and
record set; the params snapshot is kept apart from its current-update
marker. -/
def clear_data (g : CMGroup) : CMGroup :=
  ⟨{ g.params with current_update := none }, [], []⟩

/-- Modelled from the spec: `get_compounds()` — pure read of the record
set. -/
def get_compounds (g : CMGroup) : List Compound := g.compounds

/-- Modelled from the spec: `get_returned_identifiers()` — pure read of the
identifier set. -/
def get_returned_identifiers (g : CMGroup) : List Nat := g.cids

/-- Modelled from the spec: `init_search(search_client, result_limit)` —
marks current-update, runs the search on the group's query, and on success
writes the returned identifiers (full replace) and clears the marker; on
failure the marker stays set and the error is surfaced. -/
def init_search (search : String → Option Nat → Except String (List Nat))
    (limit : Option Nat) (g : CMGroup) : CMGroup × Option String :=
  match search g.params.query limit with
  | .error e =>
      ({ g with params := { g.params with current_update := some 0 } }, some e)
  | .ok ids =>
      ({ g with cids := ids,
                params := { g.params with current_update := none } }, none)

/-- Modelled from the spec: `pubchem_update(result_limit)` written out
operationally — search, then full-replace of the identifier set, then fetch
of the identifiers with no record yet and a single merge.  Claim C9 relates
it to the composition `init_search` then `update_from_identifiers`. -/
def pubchem_update (search : String → Option Nat → Except String (List Nat))
    (fetch : Nat → Option Compound) (limit : Option Nat) (g : CMGroup) :
    CMGroup × Option String :=
  match search g.params.query limit with
  | .error e =>
      ({ g with params := { g.params with current_update := some 0 } }, some e)
  | .ok ids =>
      ({ g with cids := ids,
                params := { g.params with current_update := none },
                compounds := merge_records g.compounds
                  ((ids.filter (fun i => decide (i ∉ cidsOf g.compounds))).filterMap
                    fetch) }, none)

/-- The spec's words for `pubchem_update`: the convenience composition —
`init_search` then `update_from_identifiers`; on a search failure the error
is surfaced and no update runs. -/
def pubchem_update_composed
    (search : String → Option Nat → Except String (List Nat))
    (fetch : Nat → Option Compound) (limit : Option Nat) (g : CMGroup) :
    CMGroup × Option String :=
  match init_search search limit g with
  | (g1, some e) => (g1, some e)
  | (g1, none) => (update_from_identifiers fetch g1, none)

/-- Modelled from the spec: the batch driver `batch_cmg_search` /
`BatchScheduler.run` — process the groups sequentially, pausing `wait` time
units before every group except the first, recording a failed group's
materialid and error and proceeding to the next group.  Returns the
resulting group states, the failure list, and the total inserted delay. -/
def batch_run_aux (search : String → Option Nat → Except String (List Nat))
    (fetch : Nat → Option Compound) (limit : Option Nat) (wait : Nat) :
    Bool → List CMGroup → List CMGroup × List (String × String) × Nat
  | _, [] => ([], [], 0)
  | first, g :: gs =>
      let d := if first then 0 else wait
      let res := pubchem_update search fetch limit g
      let rest := batch_run_aux search fetch limit wait false gs
      (res.1 :: rest.1,
       (match res.2 with
        | some e => (g.materialid, e) :: rest.2.1
        | none => rest.2.1),
       d + rest.2.2)

/-- Modelled from the spec: `batch_cmg_search(groups, wait, ...)`, the
entry point of the batch driver. -/
def batch_cmg_search (search : String → Option Nat → Except String (List Nat))
    (fetch : Nat → Option Compound) (limit : Option Nat) (wait : Nat)
    (groups : List CMGroup) : List CMGroup × List (String × String) × Nat :=
  batch_run_aux search fetch limit wait true groups

/-- The operations a group's record set can undergo: a completed search
(full replace of the identifier set), an update, a raw record merge, and a
clear. -/
inductive GroupOp where
  | search (ids : List Nat)
  | update (fetch : Nat → Option Compound)
  | merge (new : List Compound)
  | clear

/-- Apply one group operation. -/
def applyOp (g : CMGroup) : GroupOp → CMGroup
  | .search ids => { g with cids := ids }
  | .update f => update_from_identifiers f g
  | .merge new => { g with compounds := merge_records g.compounds new }
  | .clear => clear_data g

/-- Apply a sequence of group operations. -/
def applyOps (g : CMGroup) (ops : List GroupOp) : CMGroup :=
  ops.foldl applyOp g

/-- Sample params used by the concrete witnesses. -/
def sampleParams : Params :=
  ⟨"CMG01", "methylmercury", "[CH3][Hg]", "2016-01-01", none⟩

/-- A fetch function that succeeds on every identifier. -/
def fetchAll : Nat → Option Compound := fun i => some ⟨i, "x"⟩

/-- Sample group: identifier set of 5 CIDs, record set pre-seeded with 3 of
them (the resume-update scenario). -/
def sampleGroup : CMGroup :=
  ⟨sampleParams, [1, 2, 3, 4, 5], [⟨1, "a"⟩, ⟨2, "b"⟩, ⟨3, "c"⟩]⟩

/-- Sample group whose record set holds 3 of its 5 identifiers plus 3
records disjoint from the identifier set (the partial-overlap scenario). -/
def mixedGroup : CMGroup :=
  ⟨sampleParams, [1, 2, 3, 4, 5],
   [⟨1, "a"⟩, ⟨2, "b"⟩, ⟨3, "c"⟩, ⟨11, "x"⟩, ⟨12, "y"⟩, ⟨13, "z"⟩]⟩

/-- Unfolding `merge_records` when the head record's identifier is already
present: the record is skipped. -/
theorem merge_records_cons_mem (existing : List Compound) (r : Compound)
    (rest : List Compound) (h : r.cid ∈ cidsOf existing) :
    merge_records existing (r :: rest) = merge_records existing rest := by
  simp [merge_records, h]

/-- Unfolding `merge_records` when the head record's identifier is not yet
present: the record is appended. -/
theorem merge_records_cons_new (existing : List Compound) (r : Compound)
    (rest : List Compound) (h : r.cid ∉ cidsOf existing) :
    merge_records existing (r :: rest) = merge_records (existing ++ [r]) rest := by
  simp [merge_records, h]

/-- `merge_records` only appends: the result is the existing records
followed by some tail. -/
theorem merge_records_eq_append (new : List Compound) :
    ∀ existing, ∃ t, merge_records existing new = existing ++ t := by
  induction new with
  | nil => intro existing; exact ⟨[], by simp [merge_records]⟩
  | cons r rest ih =>
    intro existing
    by_cases h : r.cid ∈ cidsOf existing
    · obtain ⟨t, ht⟩ := ih existing
      exact ⟨t, by rw [merge_records_cons_mem existing r rest h, ht]⟩
    · obtain ⟨t, ht⟩ := ih (existing ++ [r])
      refine ⟨[r] ++ t, ?_⟩
      rw [merge_records_cons_new existing r rest h, ht, List.append_assoc]

/-- Existing records survive a merge. -/
theorem mem_merge_left (new existing : List Compound) (c : Compound)
    (hc : c ∈ existing) : c ∈ merge_records existing new := by
  obtain ⟨t, ht⟩ := merge_records_eq_append new existing
  rw [ht]
  exact List.mem_append_left _ hc

/-- Identifiers already covered stay covered after a merge. -/
theorem cid_mem_merge_left (new existing : List Compound) (x : Nat)
    (hx : x ∈ cidsOf existing) : x ∈ cidsOf (merge_records existing new) := by
  obtain ⟨t, ht⟩ := merge_records_eq_append new existing
  rw [ht]
  unfold cidsOf at hx ⊢
  rw [List.map_append]
  exact List.mem_append_left _ hx

/-- After a merge, every identifier of the merged batch is covered by the
record set (either it was already there, or its record was appended). -/
theorem cid_mem_merge_of_mem_batch (new : List Compound) :
    ∀ existing r, r ∈ new → r.cid ∈ cidsOf (merge_records existing new) := by
  induction new with
  | nil => intro existing r hr; cases hr
  | cons s rest ih =>
    intro existing r hr
    rcases List.mem_cons.mp hr with h1 | h2
    · subst h1
      by_cases h : r.cid ∈ cidsOf existing
      · rw [merge_records_cons_mem existing r rest h]
        exact cid_mem_merge_left rest existing r.cid h
      · rw [merge_records_cons_new existing r rest h]
        apply cid_mem_merge_left
        unfold cidsOf
        rw [List.map_append]
        exact List.mem_append_right _ (by simp)
    · by_cases h : s.cid ∈ cidsOf existing
      · rw [merge_records_cons_mem existing s rest h]
        exact ih existing r h2
      · rw [merge_records_cons_new existing s rest h]
        exact ih (existing ++ [s]) r h2

/-- An identifier covered after a merge was covered before, or belongs to
the merged batch: a merge introduces no foreign identifiers. -/
theorem cid_mem_merge_cases (new : List Compound) :
    ∀ existing x, x ∈ cidsOf (merge_records existing new) →
      x ∈ cidsOf existing ∨ x ∈ cidsOf new := by
  induction new with
  | nil =>
    intro existing x hx
    exact Or.inl (by simpa [merge_records] using hx)
  | cons s rest ih =>
    intro existing x hx
    by_cases h : s.cid ∈ cidsOf existing
    · rw [merge_records_cons_mem existing s rest h] at hx
      rcases ih existing x hx with h1 | h2
      · exact Or.inl h1
      · refine Or.inr ?_
        unfold cidsOf at h2 ⊢
        simpa using Or.inr (by simpa using h2)
    · rw [merge_records_cons_new existing s rest h] at hx
      rcases ih (existing ++ [s]) x hx with h1 | h2
      · unfold cidsOf at h1
        rw [List.map_append] at h1
        rcases List.mem_append.mp h1 with ha | hb
        · exact Or.inl ha
        · refine Or.inr ?_
          unfold cidsOf
          simp at hb
          simp [hb]
      · refine Or.inr ?_
        unfold cidsOf at h2 ⊢
        simpa using Or.inr (by simpa using h2)

/-- A merge never creates duplicate identifiers (invariant I1). -/
theorem merge_records_nodup (new : List Compound) :
    ∀ existing, (cidsOf existing).Nodup →
      (cidsOf (merge_records existing new)).Nodup := by
  induction new with
  | nil => intro existing h; simpa [merge_records] using h
  | cons s rest ih =>
    intro existing h
    by_cases hm : s.cid ∈ cidsOf existing
    · rw [merge_records_cons_mem existing s rest hm]
      exact ih existing h
    · rw [merge_records_cons_new existing s rest hm]
      apply ih
      unfold cidsOf at h hm ⊢
      rw [List.map_append, List.nodup_append]
      refine ⟨h, by simp, ?_⟩
      intro a ha hb
      simp at hb
      rw [hb] at ha
      exact hm ha

/-- Merging a batch whose identifiers are all already covered changes
nothing. -/
theorem merge_records_eq_self (new : List Compound) :
    ∀ existing, (∀ r ∈ new, r.cid ∈ cidsOf existing) →
      merge_records existing new = existing := by
  induction new with
  | nil => intro existing _; rfl
  | cons s rest ih =>
    intro existing h
    have hs : s.cid ∈ cidsOf existing := h s (List.mem_cons_self s rest)
    rw [merge_records_cons_mem existing s rest hs]
    exact ih existing (fun r hr => h r (List.mem_cons_of_mem s hr))

/-- Membership in the `missing` computation: the identifier is in the
identifier set and has no record yet. -/
theorem mem_missingCids (g : CMGroup) (i : Nat) :
    i ∈ missingCids g ↔ i ∈ g.cids ∧ i ∉ cidsOf g.compounds := by
  simp [missingCids, List.mem_filter]

/-- C3: calling `update_from_identifiers` twice in a row with the remote
property source returning the same data both times yields the same record
set after the second call as after the first — the second merge of the same
input records is a no-op, so the whole group state is unchanged. -/
theorem update_from_identifiers_idempotent (f : Nat → Option Compound)
    (g : CMGroup) :
    update_from_identifiers f (update_from_identifiers f g) =
      update_from_identifiers f g := by
  have hsub : ∀ r ∈ (missingCids (update_from_identifiers f g)).filterMap f,
      r.cid ∈ cidsOf (update_from_identifiers f g).compounds := by
    intro r hr
    obtain ⟨i, hi, hfi⟩ := List.mem_filterMap.mp hr
    obtain ⟨hi1, hi2⟩ := (mem_missingCids (update_from_identifiers f g) i).mp hi
    have hig : i ∈ missingCids g := by
      rw [mem_missingCids]
      refine ⟨hi1, ?_⟩
      intro hmem
      exact hi2 (cid_mem_merge_left ((missingCids g).filterMap f) g.compounds i hmem)
    have hrb : r ∈ (missingCids g).filterMap f :=
      List.mem_filterMap.mpr ⟨i, hig, hfi⟩
    exact cid_mem_merge_of_mem_batch ((missingCids g).filterMap f) g.compounds r hrb
  show { update_from_identifiers f g with
           compounds := merge_records (update_from_identifiers f g).compounds
             ((missingCids (update_from_identifiers f g)).filterMap f) } =
       update_from_identifiers f g
  rw [merge_records_eq_self _ _ hsub]

/-- C4: across every sequence of search, update, merge and clear
operations, the record set never acquires two records with the same
identifier (invariant I1). -/
theorem record_set_nodup_invariant (ops : List GroupOp) :
    ∀ g : CMGroup, (cidsOf g.compounds).Nodup →
      (cidsOf (applyOps g ops).compounds).Nodup := by
  induction ops with
  | nil => intro g h; exact h
  | cons op rest ih =>
    intro g h
    have h1 : (cidsOf (applyOp g op).compounds).Nodup := by
      cases op with
      | search ids => exact h
      | update f => exact merge_records_nodup _ _ h
      | merge new => exact merge_records_nodup _ _ h
      | clear => simp [applyOp, clear_data, cidsOf]
    exact ih (applyOp g op) h1

/-- Witness for C4: a concrete group with a duplicate-free record set stays
duplicate-free across an update, a raw merge, a new search and a further
update. -/
theorem record_set_nodup_invariant_witness :
    (cidsOf sampleGroup.compounds).Nodup ∧
    (cidsOf (applyOps sampleGroup
      [GroupOp.update fetchAll, GroupOp.merge [⟨11, "x"⟩, ⟨2, "q"⟩],
       GroupOp.search [7, 8], GroupOp.update fetchAll]).compounds).Nodup :=
  ⟨by decide, record_set_nodup_invariant _ sampleGroup (by decide)⟩

/-- C1: after a successful `update_from_identifiers` (every missing
identifier's fetch returned a record carrying that identifier), every
identifier in the group's identifier set has exactly one record in the
record set. -/
theorem closure_after_update (f : Nat → Option Compound) (g : CMGroup)
    (hnd : (cidsOf g.compounds).Nodup)
    (hf : ∀ i ∈ missingCids g, (f i).map Compound.cid = some i) :
    ∀ i ∈ g.cids,
      (cidsOf (update_from_identifiers f g).compounds).count i = 1 := by
  intro i hi
  have hnd' : (cidsOf (update_from_identifiers f g).compounds).Nodup :=
    merge_records_nodup ((missingCids g).filterMap f) g.compounds hnd
  have hmem : i ∈ cidsOf (update_from_identifiers f g).compounds := by
    by_cases h : i ∈ cidsOf g.compounds
    · exact cid_mem_merge_left ((missingCids g).filterMap f) g.compounds i h
    · have him : i ∈ missingCids g := (mem_missingCids g i).mpr ⟨hi, h⟩
      obtain ⟨r, hr, hcid⟩ := Option.map_eq_some'.mp (hf i him)
      have hrb : r ∈ (missingCids g).filterMap f :=
        List.mem_filterMap.mpr ⟨i, him, hr⟩
      have hx := cid_mem_merge_of_mem_batch ((missingCids g).filterMap f)
        g.compounds r hrb
      rwa [hcid] at hx
  exact List.count_eq_one_of_mem hnd' hmem

/-- Witness for C1: identifier set of 5 CIDs, record set pre-seeded with 3
of them; after one update the identifier 4 has exactly one record, and the
record set has exactly 5 entries. -/
theorem closure_after_update_witness :
    (cidsOf sampleGroup.compounds).Nodup ∧
    (∀ i ∈ missingCids sampleGroup, (fetchAll i).map Compound.cid = some i) ∧
    (cidsOf (update_from_identifiers fetchAll sampleGroup).compounds).count 4 = 1 ∧
    (update_from_identifiers fetchAll sampleGroup).compounds.length = 5 :=
  ⟨by decide, by decide,
   closure_after_update fetchAll sampleGroup (by decide) (by decide) 4 (by decide),
   by decide⟩

/-- C2: an update preserves every existing record (in particular records
whose identifiers lie outside the current identifier set), while still
covering every identifier of the identifier set; only `clear_data` empties
the record set. -/
theorem update_preserves_disjoint_records (f : Nat → Option Compound)
    (g : CMGroup)
    (hf : ∀ i ∈ missingCids g, (f i).map Compound.cid = some i) :
    (∀ c ∈ g.compounds, c ∈ (update_from_identifiers f g).compounds) ∧
    (∀ i ∈ g.cids, i ∈ cidsOf (update_from_identifiers f g).compounds) ∧
    (clear_data g).compounds = [] := by
  refine ⟨?_, ?_, rfl⟩
  · intro c hc
    exact mem_merge_left ((missingCids g).filterMap f) g.compounds c hc
  · intro i hi
    by_cases h : i ∈ cidsOf g.compounds
    · exact cid_mem_merge_left ((missingCids g).filterMap f) g.compounds i h
    · have him : i ∈ missingCids g := (mem_missingCids g i).mpr ⟨hi, h⟩
      obtain ⟨r, hr, hcid⟩ := Option.map_eq_some'.mp (hf i him)
      have hrb : r ∈ (missingCids g).filterMap f :=
        List.mem_filterMap.mpr ⟨i, him, hr⟩
      have hx := cid_mem_merge_of_mem_batch ((missingCids g).filterMap f)
        g.compounds r hrb
      rwa [hcid] at hx

/-- Witness for C2: a group with 3 of its 5 identifiers recorded plus 3
records disjoint from the identifier set; after the update a disjoint
record survives and the record count is 8, exceeding the identifier-set
size 5. -/
theorem update_preserves_disjoint_records_witness :
    (∀ i ∈ missingCids mixedGroup, (fetchAll i).map Compound.cid = some i) ∧
    Compound.mk 11 "x" ∈ (update_from_identifiers fetchAll mixedGroup).compounds ∧
    (update_from_identifiers fetchAll mixedGroup).compounds.length = 8 ∧
    mixedGroup.cids.length = 5 :=
  ⟨by decide,
   (update_preserves_disjoint_records fetchAll mixedGroup (by decide)).1
     ⟨11, "x"⟩ (by decide),
   by decide, by decide⟩

/-- C7: a property-fetch failure for one missing identifier does not abort
the others — after the update the failed identifier is still missing (so it
is recomputed and retried on the next call), while every other missing
identifier whose fetch succeeded is merged and no longer missing. -/
theorem fetch_failure_isolated (f : Nat → Option Compound) (g : CMGroup)
    (i0 : Nat)
    (h1 : i0 ∈ missingCids g)
    (h2 : f i0 = none)
    (h3 : ∀ j ∈ missingCids g, j ≠ i0 → (f j).map Compound.cid = some j) :
    i0 ∈ missingCids (update_from_identifiers f g) ∧
    ∀ j ∈ missingCids g, j ≠ i0 →
      j ∉ missingCids (update_from_identifiers f g) := by
  constructor
  · rw [mem_missingCids]
    obtain ⟨hi0c, hi0n⟩ := (mem_missingCids g i0).mp h1
    refine ⟨hi0c, ?_⟩
    intro hmem
    rcases cid_mem_merge_cases ((missingCids g).filterMap f) g.compounds i0 hmem
      with hc | hb
    · exact hi0n hc
    · unfold cidsOf at hb
      obtain ⟨r, hrb, hrcid⟩ := List.mem_map.mp hb
      obtain ⟨j, hj, hfj⟩ := List.mem_filterMap.mp hrb
      by_cases hji : j = i0
      · rw [hji, h2] at hfj
        cases hfj
      · have hmap := h3 j hj hji
        rw [hfj] at hmap
        simp only [Option.map_some', Option.some.injEq] at hmap
        exact hji (by rw [← hmap]; exact hrcid)
  · intro j hj hji
    rw [mem_missingCids]
    push_neg
    intro _
    obtain ⟨r, hr, hcid⟩ := Option.map_eq_some'.mp (h3 j hj hji)
    have hrb : r ∈ (missingCids g).filterMap f :=
      List.mem_filterMap.mpr ⟨j, hj, hr⟩
    have hx := cid_mem_merge_of_mem_batch ((missingCids g).filterMap f)
      g.compounds r hrb
    rwa [hcid] at hx

/-- A fetch function that fails on identifier 5 and succeeds elsewhere. -/
def fetchFails5 : Nat → Option Compound :=
  fun i => if i = 5 then none else some ⟨i, "x"⟩

/-- Witness for C7: with missing identifiers 4 and 5 and a fetch that fails
on 5, the update leaves 5 missing (to be retried) while 4 is merged. -/
theorem fetch_failure_isolated_witness :
    5 ∈ missingCids sampleGroup ∧ fetchFails5 5 = none ∧
    (∀ j ∈ missingCids sampleGroup, j ≠ 5 →
      (fetchFails5 j).map Compound.cid = some j) ∧
    5 ∈ missingCids (update_from_identifiers fetchFails5 sampleGroup) ∧
    4 ∉ missingCids (update_from_identifiers fetchFails5 sampleGroup) :=
  ⟨by decide, by decide, by decide,
   (fetch_failure_isolated fetchFails5 sampleGroup 5 (by decide) (by decide)
     (by decide)).1,
   (fetch_failure_isolated fetchFails5 sampleGroup 5 (by decide) (by decide)
     (by decide)).2 4 (by decide) (by decide)⟩

/-- C5: after `clear_data`, `get_compounds` and `get_returned_identifiers`
both return empty collections, and a subsequent `update_from_identifiers`
or `pubchem_update` behaves exactly as on a group that never held any
identifiers or records. -/
theorem clear_data_resets (g : CMGroup) :
    get_compounds (clear_data g) = [] ∧
    get_returned_identifiers (clear_data g) = [] ∧
    (∀ f, update_from_identifiers f (clear_data g) =
      update_from_identifiers f (fresh_group (clear_data g).params)) ∧
    (∀ search f limit, pubchem_update search f limit (clear_data g) =
      pubchem_update search f limit (fresh_group (clear_data g).params)) :=
  ⟨rfl, rfl, fun _ => rfl, fun _ _ _ => rfl⟩

/-- C9: `pubchem_update` computes exactly the composition `init_search`
then `update_from_identifiers`: for every search client, property client,
result limit and group, the resulting group state (identifier set, record
set and params) and the surfaced error coincide. -/
theorem pubchem_update_eq_composed
    (search : String → Option Nat → Except String (List Nat))
    (fetch : Nat → Option Compound) (limit : Option Nat) (g : CMGroup) :
    pubchem_update search fetch limit g =
      pubchem_update_composed search fetch limit g := by
  unfold pubchem_update pubchem_update_composed init_search
  cases search g.params.query limit with
  | error e => rfl
  | ok ids => rfl

/-- C10: constructing a CMGroup from a params record yields a group whose
`materialid` attribute equals the params record's materialid field and
whose `name` attribute equals the params record's name field. -/
theorem cmgroup_from_params_attributes (p : Params) :
    (cmgroup_from_params p).materialid = p.materialid ∧
    (cmgroup_from_params p).name = p.name :=
  ⟨rfl, rfl⟩

/-- The states produced by the batch driver: every group is attempted and
its resulting state (successful update, or the failure-marked state) is
returned, independently of the other groups. -/
theorem batch_run_aux_states
    (search : String → Option Nat → Except String (List Nat))
    (fetch : Nat → Option Compound) (limit : Option Nat) (wait : Nat)
    (groups : List CMGroup) :
    ∀ first, (batch_run_aux search fetch limit wait first groups).1 =
      groups.map (fun g => (pubchem_update search fetch limit g).1) := by
  induction groups with
  | nil => intro first; rfl
  | cons g gs ih =>
    intro first
    show (pubchem_update search fetch limit g).1 ::
        (batch_run_aux search fetch limit wait false gs).1 =
      (pubchem_update search fetch limit g).1 ::
        gs.map (fun g => (pubchem_update search fetch limit g).1)
    rw [ih false]

/-- The failure list produced by the batch driver: exactly the groups whose
processing surfaced an error, each recorded with its materialid and its
error. -/
theorem batch_run_aux_failures
    (search : String → Option Nat → Except String (List Nat))
    (fetch : Nat → Option Compound) (limit : Option Nat) (wait : Nat)
    (groups : List CMGroup) :
    ∀ first, (batch_run_aux search fetch limit wait first groups).2.1 =
      groups.filterMap (fun g =>
        ((pubchem_update search fetch limit g).2).map
          (fun e => (g.materialid, e))) := by
  induction groups with
  | nil => intro first; rfl
  | cons g gs ih =>
    intro first
    show (match (pubchem_update search fetch limit g).2 with
          | some e => (g.materialid, e) ::
              (batch_run_aux search fetch limit wait false gs).2.1
          | none => (batch_run_aux search fetch limit wait false gs).2.1) = _
    cases h : (pubchem_update search fetch limit g).2 with
    | some e => simp [List.filterMap_cons, h, ih false]
    | none => simp [List.filterMap_cons, h, ih false]

/-- The delay inserted by the batch driver after the first group: `wait`
time units before each of the remaining groups. -/
theorem batch_run_aux_elapsed
    (search : String → Option Nat → Except String (List Nat))
    (fetch : Nat → Option Compound) (limit : Option Nat) (wait : Nat)
    (groups : List CMGroup) :
    (batch_run_aux search fetch limit wait false groups).2.2 =
      wait * groups.length := by
  induction groups with
  | nil => rfl
  | cons g gs ih =>
    show wait + (batch_run_aux search fetch limit wait false gs).2.2 =
      wait * (g :: gs).length
    rw [ih, List.length_cons, Nat.mul_add, Nat.mul_one]
    exact Nat.add_comm wait (wait * gs.length)

/-- C6: the batch driver attempts every group of the batch — the returned
states are exactly the per-group processing results, so one group's failure
never prevents the others' successful updates from being observable — and
it returns (rather than raises) the failure list, holding exactly the
failed groups' materialids paired with their errors. -/
theorem batch_isolation
    (search : String → Option Nat → Except String (List Nat))
    (fetch : Nat → Option Compound) (limit : Option Nat) (wait : Nat)
    (groups : List CMGroup) :
    (batch_cmg_search search fetch limit wait groups).1 =
      groups.map (fun g => (pubchem_update search fetch limit g).1) ∧
    (batch_cmg_search search fetch limit wait groups).2.1 =
      groups.filterMap (fun g =>
        ((pubchem_update search fetch limit g).2).map
          (fun e => (g.materialid, e))) :=
  ⟨batch_run_aux_states search fetch limit wait groups true,
   batch_run_aux_failures search fetch limit wait groups true⟩

/-- C8: the batch driver pauses `wait` time units before every group except
the first, so the total inserted delay over n groups is `wait * (n - 1)`;
over 3 groups the delay is inserted exactly twice. -/
theorem batch_wait_before_all_but_first
    (search : String → Option Nat → Except String (List Nat))
    (fetch : Nat → Option Compound) (limit : Option Nat) (wait : Nat)
    (groups : List CMGroup) :
    (batch_cmg_search search fetch limit wait groups).2.2 =
      wait * (groups.length - 1) ∧
    ∀ g1 g2 g3, (batch_cmg_search search fetch limit wait [g1, g2, g3]).2.2 =
      2 * wait := by
  constructor
  · cases groups with
    | nil => rfl
    | cons g gs =>
      show 0 + (batch_run_aux search fetch limit wait false gs).2.2 =
        wait * ((g :: gs).length - 1)
      rw [batch_run_aux_elapsed, List.length_cons, Nat.add_sub_cancel,
        Nat.zero_add]
  · intro g1 g2 g3
    show 0 + (batch_run_aux search fetch limit wait false [g2, g3]).2.2 = 2 * wait
    rw [batch_run_aux_elapsed]
    show 0 + wait * 2 = 2 * wait
    omega
